import Mathlib

/-
Verification of the Structured Narrative Document Pipeline of
samraatc/content_summery_bot (src/app1.py) against its specification.

The embedding models Python strings as lists of characters (`Str`). Python
whitespace (for `str.strip()` and the regex class `\s`) is modelled by its
ASCII fragment, and `str.lower()` by ASCII lowercasing, which agree with
Python on all inputs used below.

Each `re.sub` at src/app1.py lines 103-108 is embedded as a left-to-right
scan, following the semantics of the Python `re` module for the concrete
pattern (lazy groups for the emphasis patterns, greedy quantifier runs,
`^` anchoring per line only under `re.MULTILINE`, `.` not matching a
newline unless `re.DOTALL` is set). Recursions whose call argument is not
a structural subterm use an explicit fuel parameter, always called with
fuel exceeding the list length (each recursive call consumes at least one
character, so the fuel is never exhausted); this keeps every definition
kernel-computable.
-/

abbrev Str := List Char

/-- Python whitespace, ASCII fragment: the characters matched by the regex
class `\s` and stripped by `str.strip()`. -/
def isPySpace (c : Char) : Bool :=
  c == ' ' || c == '\t' || c == '\n' || c == '\r' || c == '\x0b' || c == '\x0c'

/-- Python `str.strip()`: remove leading and trailing whitespace. -/
def pyStrip (l : Str) : Str :=
  ((l.dropWhile isPySpace).reverse.dropWhile isPySpace).reverse

/-- Python `str.lower()` (ASCII). -/
def pyLower (l : Str) : Str := l.map Char.toLower

/-- Python `str.startswith(pat)` scanning from the head. -/
def startsWithL : Str → Str → Bool
  | [], _ => true
  | _ :: _, [] => false
  | p :: ps, c :: cs => p == c && startsWithL ps cs

/-- Python `str.endswith(pat)`. -/
def endsWithL (pat l : Str) : Bool := startsWithL pat.reverse l.reverse

/-- Number of positions of `l` at which `pat` occurs as a prefix of the
remaining text (occurrence count of a pattern, overlaps included). -/
def countOcc (pat : Str) : Str → Nat
  | [] => 0
  | c :: rest => (if startsWithL pat (c :: rest) then 1 else 0) + countOcc pat rest

/- ----------------- Text cleaning (src/app1.py lines 99-109) ----------------- -/

/-- Search for the lazy closing `**` of `re` pattern `\*\*(.*?)\*\*`: the first
later occurrence of `**` with no newline before it (`.` does not match a
newline). Returns the captured group and the rest after the closing `**`. -/
def findClose2 : Str → Option (Str × Str)
  | [] => none
  | '*' :: '*' :: rest => some ([], rest)
  | c :: rest =>
    if c == '\n' then none
    else (findClose2 rest).map fun p => (c :: p.1, p.2)

/-- Search for the lazy closing `*` of `re` pattern `\*(.*?)\*`. -/
def findClose1 : Str → Option (Str × Str)
  | [] => none
  | '*' :: rest => some ([], rest)
  | c :: rest =>
    if c == '\n' then none
    else (findClose1 rest).map fun p => (c :: p.1, p.2)

/-- Line 103, `re.sub(r"\*\*(.*?)\*\*", r"\1", text)`: global left-to-right
replacement; on a failed match the scan advances one character. -/
def subBoldF : Nat → Str → Str
  | 0, l => l
  | _ + 1, [] => []
  | f + 1, c :: rest =>
    if c == '*' && rest.head? == some '*' then
      match findClose2 rest.tail with
      | some (g, r) => g ++ subBoldF f r
      | none => c :: subBoldF f rest
    else c :: subBoldF f rest

/-- Line 104, `re.sub(r"\*(.*?)\*", r"\1", text)`. -/
def subItalicF : Nat → Str → Str
  | 0, l => l
  | _ + 1, [] => []
  | f + 1, c :: rest =>
    if c == '*' then
      match findClose1 rest with
      | some (g, r) => g ++ subItalicF f r
      | none => c :: subItalicF f rest
    else c :: subItalicF f rest

/-- Line 105, `re.sub(r"^#+\s*", "", text, flags=re.MULTILINE)`: at the start
of a line, a maximal run of `#` and all following whitespace (newlines
included, since `\s` matches them) are removed. `atStart` records whether the
scan position is at the start of a line (start of string or right after a
newline); after a removal the position is at a line start exactly when the
last removed whitespace character was a newline. -/
def subHashF : Nat → Bool → Str → Str
  | 0, _, l => l
  | _ + 1, _, [] => []
  | f + 1, atStart, c :: rest =>
    if atStart && c == '#' then
      subHashF f
        (((rest.dropWhile (· == '#')).takeWhile isPySpace).getLast? == some '\n')
        ((rest.dropWhile (· == '#')).dropWhile isPySpace)
    else c :: subHashF f (c == '\n') rest

/-- Line 106, `re.sub(r"•\s*", "- ", text, flags=re.MULTILINE)`: a bullet
glyph and all following whitespace are replaced by a dash and a space,
anywhere in the text (the pattern has no anchor). -/
def subBulletF : Nat → Str → Str
  | 0, l => l
  | _ + 1, [] => []
  | f + 1, c :: rest =>
    if c == '•' then '-' :: ' ' :: subBulletF f (rest.dropWhile isPySpace)
    else c :: subBulletF f rest

/-- Line 107, `re.sub(r"\r\n", "\n", text)`: each occurrence of the
two-character sequence CR LF becomes LF, in one left-to-right pass. -/
def subCrlfF : Nat → Str → Str
  | 0, l => l
  | _ + 1, [] => []
  | f + 1, c :: rest =>
    if c == '\r' && rest.head? == some '\n' then '\n' :: subCrlfF f rest.tail
    else c :: subCrlfF f rest

/-- Line 108, `re.sub(r"\n{3,}", "\n\n", text)`: a maximal run of three or
more newlines collapses to exactly two. -/
def subBlankF : Nat → Str → Str
  | 0, l => l
  | _ + 1, [] => []
  | f + 1, c :: rest =>
    if c == '\n' && startsWithL ['\n', '\n'] rest then
      '\n' :: '\n' :: subBlankF f (rest.dropWhile (· == '\n'))
    else c :: subBlankF f rest

def subBold (l : Str) : Str := subBoldF (l.length + 1) l

def subItalic (l : Str) : Str := subItalicF (l.length + 1) l

def subHash (l : Str) : Str := subHashF (l.length + 1) true l

def subBullet (l : Str) : Str := subBulletF (l.length + 1) l

def subCrlf (l : Str) : Str := subCrlfF (l.length + 1) l

def subBlank (l : Str) : Str := subBlankF (l.length + 1) l

/-- An input all of whose CR characters immediately begin a CR LF pair (no
lone and no stacked CR). The flag records that the previous character was a
CR still waiting for its LF. -/
def crOkGo : Bool → Str → Bool
  | pending, [] => !pending
  | pending, c :: rest =>
    if pending && !(c == '\n') then false
    else crOkGo (c == '\r') rest

def crOk (l : Str) : Bool := crOkGo false l

/-- No three consecutive newlines occur (the guard mirrors the one of
`subBlankF`). -/
def noTriple : Str → Bool
  | [] => true
  | c :: rest => !(c == '\n' && startsWithL ['\n', '\n'] rest) && noTriple rest

/-- `clean_text_block` (src/app1.py lines 99-109) on a string argument: the
six regex passes in source order, then `str.strip()`. The empty string is
returned unchanged by the falsiness guard at line 100. -/
def clean_text_block (text : Str) : Str :=
  if text = [] then []
  else pyStrip (subBlank (subCrlf (subBullet (subHash (subItalic (subBold text))))))

/-- The public boundary of `clean_text_block` (line 100): Python `None` is
falsy, so it maps to the empty string; a string argument is passed through
`str(text)`, the identity on strings. -/
def clean_text_block_py : Option Str → Str
  | none => []
  | some s => clean_text_block s

/- ------------- Closing splice (src/app1.py lines 396-407) ------------- -/

/-- Case-insensitive literal prefix match, as the `re.IGNORECASE` flag gives
for a literal pattern. -/
def ciStartsWith (pat l : Str) : Bool := startsWithL (pyLower pat) (pyLower l)

/-- Does `7\)\s*Closing` (case-insensitive) match at the head of `l`? -/
def sevenClosing : Str → Bool
  | '7' :: ')' :: rest => ciStartsWith ("Closing").data (rest.dropWhile isPySpace)
  | _ => false

/-- Does the alternative `\n?7\)\s*Closing` match starting at the head of
`l`? -/
def altSeven (l : Str) : Bool :=
  sevenClosing l ||
    (match l with
     | '\n' :: rest => sevenClosing rest
     | _ => false)

/-- Scan for the leftmost match of `\n?7\)\s*Closing.*`; under `re.DOTALL`
the trailing `.*` greedily consumes to the end of the string, so everything
from the match on is removed. -/
def removeSevenTail : Str → Str
  | [] => []
  | c :: rest => if altSeven (c :: rest) then [] else c :: removeSevenTail rest

/-- Line 404,
`re.sub(r"\n?7\)\s*Closing.*|^Closing.*", "", draft, flags=re.IGNORECASE | re.DOTALL)`:
without `re.MULTILINE` the anchor `^` matches only at the start of the whole
string, so the second alternative fires only when the draft itself starts
with "Closing" (case-insensitively); the first alternative is found by a
plain scan. -/
def removeClosing (draft : Str) : Str :=
  if ciStartsWith ("Closing").data draft then [] else removeSevenTail draft

/-- The formal CTA built in the refine branch (lines 397-403, where
`client_disp` is always "the client"). -/
def formal_cta (prov : Str) : Str :=
  prov ++ (" recommends moving forward with a phased engagement to realize measurable operational efficiencies within the first year. We are prepared to initiate governance reviews, align executive stakeholders, and formalize next steps to ensure the client achieves sustainable improvements in patient satisfaction, cost efficiency, and compliance readiness.").data

/-- Lines 404-405: remove any regex-matched closing, strip, and append the
canonical closing heading plus the caller-supplied CTA block. -/
def spliceClosing (draft cta : Str) : Str :=
  pyStrip (removeClosing draft) ++ ("\n\nClosing Call-to-Action\n").data ++ cta

/- ------------- Refine branch of POST /result (lines 361-409) ------------- -/

structure RefineOutcome where
  draft : Str
  flashes : List Str
  generationCalled : Bool

/-- The refine branch (lines 363-407): an empty (after `strip()`) refine
instruction is flashed and the stored draft is returned unchanged without
invoking generation; otherwise the successful generation response `genText`
is stripped, cleaned, and the closing splice of lines 404-405 is applied
with the formal CTA of the provider. -/
def refine_route (stored rawInput genText prov : Str) : RefineOutcome :=
  if pyStrip rawInput = [] then
    { draft := stored
      flashes := [("Refine instructions cannot be empty.").data]
      generationCalled := false }
  else
    { draft := spliceClosing (clean_text_block (pyStrip genText)) (formal_cta prov)
      flashes := []
      generationCalled := true }

/- ------------- Company rows and the contact block (lines 84-96, 456-466) ------------- -/

/-- A Python value as stored in the company dict: `None`, a string, or an
integer (the `id` column). -/
inductive PyVal where
  | pynone : PyVal
  | pystr : Str → PyVal
  | pyint : Int → PyVal
deriving DecidableEq

/-- A row of the `companies` table: `name` is NOT NULL, every other TEXT
column is nullable. -/
structure CompanyRow where
  id : Int
  name : Str
  industry : Option Str
  services : Option Str
  differentiators : Option Str
  contact_email : Option Str
  contact_phone : Option Str
  website : Option Str
  notes : Option Str

def optVal : Option Str → PyVal
  | none => PyVal.pynone
  | some s => PyVal.pystr s

/-- `get_company` (lines 84-96): `dict(zip(keys, row))` — every one of the
nine keys is present in the resulting dict. -/
def get_company_dict (r : CompanyRow) : List (Str × PyVal) :=
  [(("id").data, PyVal.pyint r.id),
   (("name").data, PyVal.pystr r.name),
   (("industry").data, optVal r.industry),
   (("services").data, optVal r.services),
   (("differentiators").data, optVal r.differentiators),
   (("contact_email").data, optVal r.contact_email),
   (("contact_phone").data, optVal r.contact_phone),
   (("website").data, optVal r.website),
   (("notes").data, optVal r.notes)]

/-- Python `dict.get(key, default)`: the default applies only when the key
is absent, never when the key is present with value `None`. -/
def pyDictGet (d : List (Str × PyVal)) (k : Str) (dflt : PyVal) : PyVal :=
  match d.find? (fun p => p.1 == k) with
  | some p => p.2
  | none => dflt

/-- Python f-string interpolation of a value: `None` prints as "None". -/
def pyFStr : PyVal → Str
  | PyVal.pynone => ("None").data
  | PyVal.pystr s => s
  | PyVal.pyint n => (toString n).data

/-- The contact block of the download branch (lines 458-462). -/
def contact_block (r : CompanyRow) : List Str :=
  [("Email: ").data ++ pyFStr (pyDictGet (get_company_dict r) ("contact_email").data (PyVal.pystr ("N/A").data)),
   ("Phone: ").data ++ pyFStr (pyDictGet (get_company_dict r) ("contact_phone").data (PyVal.pystr ("N/A").data)),
   ("Website: ").data ++ pyFStr (pyDictGet (get_company_dict r) ("website").data (PyVal.pystr ("N/A").data))]

/- ------------- Export heading detection (lines 417-453) ------------- -/

/-- The heading detection of the download branch (lines 420-438): the
stripped line is lowercased and tested by `str.startswith` against the
keywords in source order; the first hit yields the canonical title, with
the provider name substituted into the "Why" heading. -/
def heading_title (prov line : Str) : Option Str :=
  if startsWithL ("introduction").data (pyLower (pyStrip line)) then some (("Introduction").data)
  else if startsWithL ("our understanding").data (pyLower (pyStrip line)) then some (("Our Understanding of Your Goals").data)
  else if startsWithL ("our approach").data (pyLower (pyStrip line)) then some (("Our Approach to Meeting Your Goals").data)
  else if startsWithL ("solution overview").data (pyLower (pyStrip line)) then some (("Solution Overview").data)
  else if startsWithL ("how we will deliver").data (pyLower (pyStrip line)) then some (("How We Will Deliver").data)
  else if startsWithL ("why").data (pyLower (pyStrip line)) then some (("Why ").data ++ prov)
  else if startsWithL ("closing").data (pyLower (pyStrip line)) then some (("Closing Call-to-Action").data)
  else none

/-- The ordered keyword table of the same detection, as the spec presents
it: (match keyword, canonical label) pairs in priority order. -/
def headingSpecs (prov : Str) : List (Str × Str) :=
  [(("introduction").data, ("Introduction").data),
   (("our understanding").data, ("Our Understanding of Your Goals").data),
   (("our approach").data, ("Our Approach to Meeting Your Goals").data),
   (("solution overview").data, ("Solution Overview").data),
   (("how we will deliver").data, ("How We Will Deliver").data),
   (("why").data, ("Why ").data ++ prov),
   (("closing").data, ("Closing Call-to-Action").data)]

/-- A rendered block of the export walk. -/
inductive ExportBlock where
  | heading : Str → ExportBlock
  | bullet : Str → ExportBlock
  | para : Str → ExportBlock
deriving DecidableEq

/-- One iteration of the export loop (lines 417-453): blank lines are
skipped; a line with a detected heading is emitted as the bare canonical
title; otherwise a stripped line starting with the bullet marker becomes a
list item with the marker removed, and anything else a justified
paragraph. -/
def export_line (prov line : Str) : Option ExportBlock :=
  if pyStrip line = [] then none
  else
    match heading_title prov line with
    | some t => some (ExportBlock.heading t)
    | none =>
      if startsWithL ("- ").data (pyStrip line) then some (ExportBlock.bullet ((pyStrip line).drop 2))
      else some (ExportBlock.para (pyStrip line))

/- ============================ Claims ============================ -/

set_option maxRecDepth 100000

/-- C1: the claim states that the closing splice of lines 396-407 is
idempotent. It is not: the regex of line 404 is compiled without
`re.MULTILINE`, so `^Closing.*` matches only at the start of the whole
string and the closing block that the splice itself appended (mid-string,
preceded by a blank line) is never removed by a second application, which
appends a second copy. Evaluated at the draft "Intro" with the provider
"Acme" formal CTA. -/
theorem C1_splice_not_idempotent :
    spliceClosing (spliceClosing (("Intro").data) (formal_cta ("Acme").data))
        (formal_cta ("Acme").data) ≠
      spliceClosing (("Intro").data) (formal_cta ("Acme").data) := by decide

/-- C2: the claim states that after the splice exactly one Closing section
exists and only the canonical content survives. Evaluating the code at the
spec's own end-to-end input (two malformed "Closing Call-to-Action\nOld
text" fragments): the result contains three occurrences of the closing
heading and both "Old text" fragments, because the line-404 regex matches
neither fragment (no `re.MULTILINE`). -/
theorem C2_splice_keeps_fragments :
    countOcc (("Closing Call-to-Action").data)
        (spliceClosing
          (("Intro\n\nClosing Call-to-Action\nOld text\n\nClosing Call-to-Action\nOld text").data)
          (formal_cta ("Acme").data)) = 3 ∧
      countOcc (("Old text").data)
        (spliceClosing
          (("Intro\n\nClosing Call-to-Action\nOld text\n\nClosing Call-to-Action\nOld text").data)
          (formal_cta ("Acme").data)) = 2 := by
  constructor <;> decide

/-- C3: the claim states that an absent contact field renders as "N/A".
Evaluating the code at a company row whose email and website are SQL NULL:
`get_company` builds its dict with `dict(zip(keys, row))`, so every key is
present and `company.get(key, 'N/A')` returns the stored `None`, which the
f-string renders as "None" — the "N/A" default never fires. -/
theorem C3_contact_renders_None :
    contact_block
        { id := 1, name := ("Acme").data, industry := none, services := none,
          differentiators := none, contact_email := none,
          contact_phone := some (("555-0100").data), website := none, notes := none } =
      [("Email: None").data, ("Phone: 555-0100").data, ("Website: None").data] ∧
      contact_block
        { id := 1, name := ("Acme").data, industry := none, services := none,
          differentiators := none, contact_email := none,
          contact_phone := some (("555-0100").data), website := none, notes := none } ≠
      [("Email: N/A").data, ("Phone: 555-0100").data, ("Website: N/A").data] := by
  constructor <;> decide

/-- C10: the normalizer is total at its boundary (line 100): Python `None`
is falsy and yields the empty string, the empty string yields the empty
string, and (being a Lean function on the modelled inputs) it returns a
string for every input; `str(text)` is the identity on the string inputs
modelled here. -/
theorem C10_clean_total_at_boundary :
    clean_text_block_py none = [] ∧ clean_text_block_py (some []) = [] := by
  constructor <;> rfl

/- Helper lemmas on the Python string primitives. -/

theorem startsWithL_self_append (p t : Str) : startsWithL p (p ++ t) = true := by
  induction p with
  | nil => rfl
  | cons a ps ih => simp [startsWithL, ih]

theorem startsWithL_exists_append {p l : Str} (h : startsWithL p l = true) :
    ∃ t, l = p ++ t := by
  induction p generalizing l with
  | nil => exact ⟨l, rfl⟩
  | cons a ps ih =>
    cases l with
    | nil => simp [startsWithL] at h
    | cons c cs =>
      simp [startsWithL] at h
      obtain ⟨t, ht⟩ := ih h.2
      exact ⟨t, by simp [h.1, ht]⟩

theorem endsWithL_append (a b : Str) : endsWithL b (a ++ b) = true := by
  unfold endsWithL
  rw [List.reverse_append a b]
  exact startsWithL_self_append _ _

/-- C6: an empty (after stripping) refine instruction is rejected before the
generation call: the validation message is flashed, generation is not
invoked, and the stored draft is unchanged (lines 363-368). -/
theorem C6_refine_empty_rejected (stored rawInput genText prov : Str)
    (h : pyStrip rawInput = []) :
    (refine_route stored rawInput genText prov).draft = stored ∧
      (refine_route stored rawInput genText prov).flashes =
        [("Refine instructions cannot be empty.").data] ∧
      (refine_route stored rawInput genText prov).generationCalled = false := by
  simp [refine_route, h]

/-- Witness for C6 at the whitespace-only instruction "  ". -/
theorem C6_refine_empty_rejected_witness :
    pyStrip (("  ").data) = [] ∧
      ((refine_route (("Draft").data) (("  ").data) (("G").data) (("Acme").data)).draft =
          ("Draft").data ∧
        (refine_route (("Draft").data) (("  ").data) (("G").data) (("Acme").data)).flashes =
          [("Refine instructions cannot be empty.").data] ∧
        (refine_route (("Draft").data) (("  ").data) (("G").data) (("Acme").data)).generationCalled =
          false) :=
  ⟨by decide, C6_refine_empty_rejected _ _ _ _ (by decide)⟩

/-- C9: after every successful refinement pass the stored draft ends exactly
with the canonical closing suffix — a blank line, the heading line
"Closing Call-to-Action", and the provider's formal CTA block — regardless
of the text the generation call returned (lines 404-405 append it
unconditionally). -/
theorem C9_draft_ends_with_canonical_closing (stored rawInput genText prov : Str)
    (h : pyStrip rawInput ≠ []) :
    endsWithL (("\n\nClosing Call-to-Action\n").data ++ formal_cta prov)
      (refine_route stored rawInput genText prov).draft = true := by
  have hd : (refine_route stored rawInput genText prov).draft =
      pyStrip (removeClosing (clean_text_block (pyStrip genText))) ++
        ((("\n\nClosing Call-to-Action\n").data) ++ formal_cta prov) := by
    simp [refine_route, h, spliceClosing]
  rw [hd]
  exact endsWithL_append _ _

/-- Witness for C9 at a concrete refinement. -/
theorem C9_draft_ends_with_canonical_closing_witness :
    pyStrip (("go").data) ≠ [] ∧
      endsWithL (("\n\nClosing Call-to-Action\n").data ++ formal_cta (("Acme").data))
        (refine_route (("D").data) (("go").data) (("Hello").data) (("Acme").data)).draft = true :=
  ⟨by decide, C9_draft_ends_with_canonical_closing _ _ _ _ (by decide)⟩

/-- C4 counterexample: an ordinary content line sharing only the first word
"Why" with the heading "Why {provider}" is classified as that heading by
the prefix test of line 433, contradicting the claim that no heading spec
ever matches such a line. -/
theorem C4_first_word_matches_content :
    heading_title (("Acme").data) (("Why settle for less?").data) =
      some (("Why Acme").data) := by decide

/-- C4 amended: heading matching is anchored to the (stripped) start of the
line, case-insensitive and tolerant of arbitrary trailing text (punctuation
or colon included), via plain keyword-prefix matching: no spec matches
exactly when no keyword of the ordered table is a prefix of the lowercased
stripped line — and hence a content line beginning with a keyword is
classified as that heading. -/
theorem C4_match_iff_keyword_at_line_start (prov line : Str) :
    heading_title prov line = none ↔
      ∀ p ∈ headingSpecs prov, startsWithL p.1 (pyLower (pyStrip line)) = false := by
  constructor
  · intro h p hp
    unfold heading_title at h
    split_ifs at h with h1 h2 h3 h4 h5 h6 h7 <;> try simp at h
    simp only [headingSpecs, List.mem_cons, List.not_mem_nil, or_false] at hp
    rcases hp with rfl | rfl | rfl | rfl | rfl | rfl | rfl
    · simpa using h1
    · simpa using h2
    · simpa using h3
    · simpa using h4
    · simpa using h5
    · simpa using h6
    · simpa using h7
  · intro h
    have h1 := h _ (by simp [headingSpecs] : (("introduction").data, ("Introduction").data) ∈ headingSpecs prov)
    have h2 := h _ (by simp [headingSpecs] : (("our understanding").data, ("Our Understanding of Your Goals").data) ∈ headingSpecs prov)
    have h3 := h _ (by simp [headingSpecs] : (("our approach").data, ("Our Approach to Meeting Your Goals").data) ∈ headingSpecs prov)
    have h4 := h _ (by simp [headingSpecs] : (("solution overview").data, ("Solution Overview").data) ∈ headingSpecs prov)
    have h5 := h _ (by simp [headingSpecs] : (("how we will deliver").data, ("How We Will Deliver").data) ∈ headingSpecs prov)
    have h6 := h _ (by simp [headingSpecs] : (("why").data, ("Why ").data ++ prov) ∈ headingSpecs prov)
    have h7 := h _ (by simp [headingSpecs] : (("closing").data, ("Closing Call-to-Action").data) ∈ headingSpecs prov)
    simp only at h1 h2 h3 h4 h5 h6 h7
    simp [heading_title, h1, h2, h3, h4, h5, h6, h7]

theorem pyStrip_ne_of_sw {kw line : Str} (hk : kw ≠ [])
    (h : startsWithL kw (pyLower (pyStrip line)) = true) : pyStrip line ≠ [] := by
  intro he
  rw [he] at h
  cases kw with
  | nil => exact hk rfl
  | cons a ps => simp [pyLower, startsWithL] at h

theorem export_of_title {prov line t : Str} (hne : pyStrip line ≠ [])
    (ht : heading_title prov line = some t) :
    export_line prov line = some (ExportBlock.heading t) := by
  simp [export_line, hne, ht]

/-- C8: during export rendering, every line whose lowercased stripped text
starts with a recognized heading keyword is emitted as the bare canonical
label of that keyword (with the provider name substituted for the "Why"
heading): any further text on the line is discarded and the label replaces
the line wholesale (lines 420-446). -/
theorem C8_heading_line_wholesale (prov line kw label : Str)
    (hmem : (kw, label) ∈ headingSpecs prov)
    (hsw : startsWithL kw (pyLower (pyStrip line)) = true) :
    export_line prov line = some (ExportBlock.heading label) := by
  simp only [headingSpecs, List.mem_cons, List.not_mem_nil, or_false, Prod.mk.injEq] at hmem
  rcases hmem with ⟨rfl, rfl⟩ | ⟨rfl, rfl⟩ | ⟨rfl, rfl⟩ | ⟨rfl, rfl⟩ | ⟨rfl, rfl⟩ |
    ⟨rfl, rfl⟩ | ⟨rfl, rfl⟩
  · exact export_of_title (pyStrip_ne_of_sw (by decide) hsw)
      (by obtain ⟨t, ht⟩ := startsWithL_exists_append hsw; unfold heading_title; rw [ht]; rfl)
  · exact export_of_title (pyStrip_ne_of_sw (by decide) hsw)
      (by obtain ⟨t, ht⟩ := startsWithL_exists_append hsw; unfold heading_title; rw [ht]; rfl)
  · exact export_of_title (pyStrip_ne_of_sw (by decide) hsw)
      (by obtain ⟨t, ht⟩ := startsWithL_exists_append hsw; unfold heading_title; rw [ht]; rfl)
  · exact export_of_title (pyStrip_ne_of_sw (by decide) hsw)
      (by obtain ⟨t, ht⟩ := startsWithL_exists_append hsw; unfold heading_title; rw [ht]; rfl)
  · exact export_of_title (pyStrip_ne_of_sw (by decide) hsw)
      (by obtain ⟨t, ht⟩ := startsWithL_exists_append hsw; unfold heading_title; rw [ht]; rfl)
  · exact export_of_title (pyStrip_ne_of_sw (by decide) hsw)
      (by obtain ⟨t, ht⟩ := startsWithL_exists_append hsw; unfold heading_title; rw [ht]; rfl)
  · exact export_of_title (pyStrip_ne_of_sw (by decide) hsw)
      (by obtain ⟨t, ht⟩ := startsWithL_exists_append hsw; unfold heading_title; rw [ht]; rfl)

/-- Witness for C8: a "Why"-keyword line with trailing content renders as
the bare substituted heading. -/
theorem C8_heading_line_wholesale_witness :
    ((("why").data, ("Why ").data ++ ("Acme").data) ∈ headingSpecs (("Acme").data)) ∧
      startsWithL (("why").data) (pyLower (pyStrip (("Why choose us: because.").data))) = true ∧
      export_line (("Acme").data) (("Why choose us: because.").data) =
        some (ExportBlock.heading ((("Why ").data) ++ ("Acme").data)) :=
  ⟨by decide, by decide,
    C8_heading_line_wholesale (("Acme").data) (("Why choose us: because.").data)
      (("why").data) ((("Why ").data) ++ ("Acme").data) (by decide) (by decide)⟩

theorem subCrlfF_no_cr : ∀ f l, l.length ≤ f → crOkGo false l = true → '\r' ∉ subCrlfF f l := by
  intro f
  induction f with
  | zero =>
    intro l hl _
    have : l = [] := List.eq_nil_of_length_eq_zero (Nat.le_zero.mp hl)
    subst this
    simp [subCrlfF]
  | succ f ih =>
    intro l hl h
    cases l with
    | nil => simp [subCrlfF]
    | cons c rest =>
      have h' : crOkGo (c == '\r') rest = true := by
        simpa [crOkGo] using h
      by_cases hc : c = '\r'
      · subst hc
        cases rest with
        | nil => simp [crOkGo] at h'
        | cons c2 r2 =>
          by_cases h2 : c2 = '\n'
          · subst h2
            have h'' : crOkGo false r2 = true := by simpa [crOkGo] using h'
            have hr : '\r' ∉ subCrlfF f r2 := by
              refine ih r2 ?_ h''
              simp at hl
              omega
            rw [show subCrlfF (f + 1) ('\r' :: '\n' :: r2) = '\n' :: subCrlfF f r2 from by
              simp [subCrlfF]]
            simp only [List.mem_cons, not_or]
            exact ⟨by decide, hr⟩
          · simp [crOkGo, h2] at h'
      · have h'' : crOkGo false rest = true := by
          have : (c == '\r') = false := by simp [hc]
          rwa [this] at h'
        have hr : '\r' ∉ subCrlfF f rest := by
          refine ih rest ?_ h''
          simp at hl
          omega
        have hcond : (c == '\r' && rest.head? == some '\n') = false := by
          simp [hc]
        simp [subCrlfF, hcond]
        exact ⟨fun he => hc he.symm, hr⟩

/-- C7 counterexample: the claim states that all line-ending styles are
converted and no carriage return survives normalization, but line 107
rewrites only the two-character sequence CR LF: a lone CR passes through
`clean_text_block` untouched. -/
theorem C7_lone_cr_survives : '\r' ∈ clean_text_block (("a\rb").data) := by decide

/-- C7 amended: the pass of line 107 converts CR LF to LF in one
left-to-right sweep; it removes every carriage return exactly on inputs
whose every CR immediately begins a CR LF pair, while a lone (or stacked)
CR survives. -/
theorem C7_crlf_pass_removes_cr (l : Str) (h : crOk l = true) : '\r' ∉ subCrlf l :=
  subCrlfF_no_cr (l.length + 1) l (by omega) h

/-- Witness for C7 at the well-formed input "a\r\nb". -/
theorem C7_crlf_pass_removes_cr_witness :
    crOk (("a\r\nb").data) = true ∧ '\r' ∉ subCrlf (("a\r\nb").data) :=
  ⟨by decide, C7_crlf_pass_removes_cr (("a\r\nb").data) (by decide)⟩

/- Helper lemmas for the idempotence analysis of the normalizer. -/

theorem dropWhile_len_le (p : Char → Bool) : ∀ l : Str, (l.dropWhile p).length ≤ l.length := by
  intro l
  induction l with
  | nil => simp
  | cons c rest ih =>
    cases hc : p c
    · simp [List.dropWhile, hc]
    · simp only [List.dropWhile, hc, List.length_cons]
      exact Nat.le_trans ih (Nat.le_succ _)

theorem dropWhile_mem {p : Char → Bool} {a : Char} :
    ∀ {l : Str}, a ∈ l.dropWhile p → a ∈ l := by
  intro l
  induction l with
  | nil => simp
  | cons c rest ih =>
    intro h
    cases hc : p c
    · simpa [List.dropWhile, hc] using h
    · simp only [List.dropWhile, hc] at h
      exact List.mem_cons_of_mem _ (ih h)

theorem dropWhile_head_false {p : Char → Bool} :
    ∀ {l : Str} {c : Char} {t : Str}, l.dropWhile p = c :: t → p c = false := by
  intro l
  induction l with
  | nil => intro c t h; simp at h
  | cons a rest ih =>
    intro c t h
    cases ha : p a
    · simp only [List.dropWhile, ha] at h
      injection h with h1 h2
      rw [← h1]
      exact ha
    · simp only [List.dropWhile, ha] at h
      exact ih h

theorem dropWhile_eq_self_of_head {p : Char → Bool} {l : Str}
    (h : ∀ c, l.head? = some c → p c = false) : l.dropWhile p = l := by
  cases l with
  | nil => rfl
  | cons c rest => simp [List.dropWhile, h c rfl]

theorem dropWhile_twice (p : Char → Bool) (l : Str) :
    (l.dropWhile p).dropWhile p = l.dropWhile p := by
  apply dropWhile_eq_self_of_head
  intro c hc
  cases hd : l.dropWhile p with
  | nil => rw [hd] at hc; simp at hc
  | cons b t =>
    rw [hd] at hc
    simp at hc
    rw [← hc]
    exact dropWhile_head_false hd

theorem startsWithL_append_left {p : Str} :
    ∀ {a : Str} (b : Str), startsWithL p a = true → startsWithL p (a ++ b) = true := by
  induction p with
  | nil => intro a b _; rfl
  | cons q ps ih =>
    intro a b h
    cases a with
    | nil => simp [startsWithL] at h
    | cons c t =>
      simp only [startsWithL, Bool.and_eq_true] at h
      simp only [List.cons_append, startsWithL, Bool.and_eq_true]
      exact ⟨h.1, ih b h.2⟩

theorem noTriple_cons {c : Char} {l : Str} (h : noTriple (c :: l) = true) :
    noTriple l = true := by
  simp only [noTriple, Bool.and_eq_true] at h
  exact h.2

theorem noTriple_append_left : ∀ {a b : Str}, noTriple (a ++ b) = true → noTriple a = true := by
  intro a
  induction a with
  | nil => intro b _; rfl
  | cons c t ih =>
    intro b h
    have h2 : noTriple (t ++ b) = true := noTriple_cons (by rwa [List.cons_append] at h)
    simp only [noTriple, Bool.and_eq_true]
    refine ⟨?_, ih h2⟩
    cases hc : c == '\n'
    · simp
    · cases hs : startsWithL ['\n', '\n'] t
      · simp
      · have hsb := startsWithL_append_left b hs
        simp [noTriple, hc, hsb] at h

theorem noTriple_append_right : ∀ {a b : Str}, noTriple (a ++ b) = true → noTriple b = true := by
  intro a
  induction a with
  | nil => intro b h; exact h
  | cons c t ih =>
    intro b h
    exact ih (noTriple_cons (by rwa [List.cons_append] at h))

theorem subBoldF_id : ∀ f, ∀ {l : Str}, '*' ∉ l → subBoldF f l = l := by
  intro f
  induction f with
  | zero => intro l _; rfl
  | succ f ih =>
    intro l h
    cases l with
    | nil => rfl
    | cons c rest =>
      have hc : (c == '*') = false := by
        simp only [beq_eq_false_iff_ne, ne_eq]
        exact fun hcc => h (hcc ▸ List.mem_cons_self c rest)
      have hr : '*' ∉ rest := fun hm => h (List.mem_cons_of_mem _ hm)
      simp [subBoldF, hc, ih hr]

theorem subItalicF_id : ∀ f, ∀ {l : Str}, '*' ∉ l → subItalicF f l = l := by
  intro f
  induction f with
  | zero => intro l _; rfl
  | succ f ih =>
    intro l h
    cases l with
    | nil => rfl
    | cons c rest =>
      have hc : (c == '*') = false := by
        simp only [beq_eq_false_iff_ne, ne_eq]
        exact fun hcc => h (hcc ▸ List.mem_cons_self c rest)
      have hr : '*' ∉ rest := fun hm => h (List.mem_cons_of_mem _ hm)
      simp [subItalicF, hc, ih hr]

theorem subHashF_id : ∀ f, ∀ (b : Bool) {l : Str}, '#' ∉ l → subHashF f b l = l := by
  intro f
  induction f with
  | zero => intro b l _; rfl
  | succ f ih =>
    intro b l h
    cases l with
    | nil => rfl
    | cons c rest =>
      have hc : (c == '#') = false := by
        simp only [beq_eq_false_iff_ne, ne_eq]
        exact fun hcc => h (hcc ▸ List.mem_cons_self c rest)
      have hr : '#' ∉ rest := fun hm => h (List.mem_cons_of_mem _ hm)
      simp [subHashF, hc, ih _ hr]

theorem subBulletF_id : ∀ f, ∀ {l : Str}, '•' ∉ l → subBulletF f l = l := by
  intro f
  induction f with
  | zero => intro l _; rfl
  | succ f ih =>
    intro l h
    cases l with
    | nil => rfl
    | cons c rest =>
      have hc : (c == '•') = false := by
        simp only [beq_eq_false_iff_ne, ne_eq]
        exact fun hcc => h (hcc ▸ List.mem_cons_self c rest)
      have hr : '•' ∉ rest := fun hm => h (List.mem_cons_of_mem _ hm)
      simp [subBulletF, hc, ih hr]

theorem subCrlfF_id : ∀ f, ∀ {l : Str}, '\r' ∉ l → subCrlfF f l = l := by
  intro f
  induction f with
  | zero => intro l _; rfl
  | succ f ih =>
    intro l h
    cases l with
    | nil => rfl
    | cons c rest =>
      have hc : (c == '\r') = false := by
        simp only [beq_eq_false_iff_ne, ne_eq]
        exact fun hcc => h (hcc ▸ List.mem_cons_self c rest)
      have hr : '\r' ∉ rest := fun hm => h (List.mem_cons_of_mem _ hm)
      simp [subCrlfF, hc, ih hr]

theorem subBold_id {l : Str} (h : '*' ∉ l) : subBold l = l := subBoldF_id _ h

theorem subItalic_id {l : Str} (h : '*' ∉ l) : subItalic l = l := subItalicF_id _ h

theorem subHash_id {l : Str} (h : '#' ∉ l) : subHash l = l := subHashF_id _ _ h

theorem subBullet_id {l : Str} (h : '•' ∉ l) : subBullet l = l := subBulletF_id _ h

theorem subCrlf_id {l : Str} (h : '\r' ∉ l) : subCrlf l = l := subCrlfF_id _ h

theorem subBlankF_nil : ∀ f, subBlankF f [] = [] := by
  intro f
  cases f <;> rfl

theorem subBlankF_head : ∀ f (l : Str), (subBlankF f l).head? = l.head? := by
  intro f
  induction f with
  | zero => intro l; rfl
  | succ f ih =>
    intro l
    cases l with
    | nil => rfl
    | cons c rest =>
      cases hcond : (c == '\n' && startsWithL ['\n', '\n'] rest)
      · simp [subBlankF, hcond]
      · have hc : c = '\n' := by
          have := (Bool.and_eq_true _ _).mp hcond
          simpa using this.1
        have hs : startsWithL ['\n', '\n'] rest = true := ((Bool.and_eq_true _ _).mp hcond).2
        simp [subBlankF, hs, hc]

theorem subBlankF_id_of_noTriple : ∀ f, ∀ {l : Str}, noTriple l = true → subBlankF f l = l := by
  intro f
  induction f with
  | zero => intro l _; rfl
  | succ f ih =>
    intro l h
    cases l with
    | nil => rfl
    | cons c rest =>
      simp only [noTriple, Bool.and_eq_true, Bool.not_eq_true'] at h
      simp [subBlankF, h.1, ih h.2]

theorem subBlankF_mem {a : Char} : ∀ f, ∀ {l : Str}, a ∈ subBlankF f l → a ∈ l := by
  intro f
  induction f with
  | zero => intro l h; exact h
  | succ f ih =>
    intro l h
    cases l with
    | nil => simpa [subBlankF] using h
    | cons c rest =>
      cases hcond : (c == '\n' && startsWithL ['\n', '\n'] rest)
      · rw [show subBlankF (f + 1) (c :: rest) = c :: subBlankF f rest from by
          simp [subBlankF, hcond]] at h
        rcases List.mem_cons.mp h with rfl | hm
        · exact List.mem_cons_self _ _
        · exact List.mem_cons_of_mem _ (ih hm)
      · have hc : c = '\n' := by
          have := (Bool.and_eq_true _ _).mp hcond
          simpa using this.1
        have hs : startsWithL ['\n', '\n'] rest = true := ((Bool.and_eq_true _ _).mp hcond).2
        subst hc
        rw [show subBlankF (f + 1) ('\n' :: rest) =
            '\n' :: '\n' :: subBlankF f (rest.dropWhile (· == '\n')) from by
          simp [subBlankF, hs]] at h
        rcases List.mem_cons.mp h with rfl | hm
        · exact List.mem_cons_self _ _
        · rcases List.mem_cons.mp hm with rfl | hm2
          · exact List.mem_cons_self _ _
          · exact List.mem_cons_of_mem _ (dropWhile_mem (ih hm2))

theorem sW1_false_of_head {x : Str} (h : x.head? ≠ some '\n') : startsWithL ['\n'] x = false := by
  cases x with
  | nil => rfl
  | cons b t =>
    have hb : ('\n' == b) = false := by
      simp only [beq_eq_false_iff_ne, ne_eq]
      exact fun hbb => h (by rw [← hbb]; rfl)
    simp [startsWithL, hb]

theorem sW2_false_of_head {x : Str} (h : x.head? ≠ some '\n') :
    startsWithL ['\n', '\n'] x = false := by
  cases x with
  | nil => rfl
  | cons b t =>
    have hb : ('\n' == b) = false := by
      simp only [beq_eq_false_iff_ne, ne_eq]
      exact fun hbb => h (by rw [← hbb]; rfl)
    simp [startsWithL, hb]

theorem sW2_cons_nl (y : Str) : startsWithL ['\n', '\n'] ('\n' :: y) = startsWithL ['\n'] y := by
  simp [startsWithL]

theorem sW2_false_of_sW1 {x : Str} (h : startsWithL ['\n'] x = false) :
    startsWithL ['\n', '\n'] x = false := by
  cases x with
  | nil => rfl
  | cons b t =>
    cases hb : ('\n' == b)
    · simp [startsWithL, hb]
    · rw [show startsWithL ['\n'] (b :: t) = true from by simp [startsWithL, hb]] at h
      exact absurd h (by simp)

theorem head_ne_nl_of_sW1_false {x : Str} (h : startsWithL ['\n'] x = false) :
    x.head? ≠ some '\n' := by
  intro hh
  cases x with
  | nil => simp at hh
  | cons b t =>
    simp only [List.head?_cons, Option.some.injEq] at hh
    subst hh
    simp [startsWithL] at h

theorem noTriple_two_nl {x : Str} (hx : x.head? ≠ some '\n') (h : noTriple x = true) :
    noTriple ('\n' :: '\n' :: x) = true := by
  have h2 : startsWithL ['\n', '\n'] x = false := sW2_false_of_head hx
  have h1 : startsWithL ['\n'] x = false := sW1_false_of_head hx
  simp [noTriple, sW2_cons_nl, h1, h2, h]

theorem subBlankF_noTriple : ∀ f, ∀ {l : Str}, l.length ≤ f → noTriple (subBlankF f l) = true := by
  intro f
  induction f with
  | zero =>
    intro l hl
    have hnil : l = [] := List.eq_nil_of_length_eq_zero (Nat.le_zero.mp hl)
    subst hnil
    rfl
  | succ f ih =>
    intro l hl
    cases l with
    | nil => rfl
    | cons c rest =>
      cases hcond : (c == '\n' && startsWithL ['\n', '\n'] rest)
      · rw [show subBlankF (f + 1) (c :: rest) = c :: subBlankF f rest from by
          simp [subBlankF, hcond]]
        have hrl : rest.length ≤ f := by
          simp only [List.length_cons] at hl
          omega
        have hnt := ih hrl
        by_cases hc : c = '\n'
        · subst hc
          have hs : startsWithL ['\n', '\n'] rest = false := by simpa using hcond
          have hsf : startsWithL ['\n', '\n'] (subBlankF f rest) = false := by
            cases rest with
            | nil => rw [subBlankF_nil]; rfl
            | cons a r2 =>
              by_cases ha : a = '\n'
              · subst ha
                have h1 : startsWithL ['\n'] r2 = false := by rwa [sW2_cons_nl] at hs
                cases f with
                | zero => exact absurd hrl (by simp)
                | succ f2 =>
                  have hs2 : startsWithL ['\n', '\n'] r2 = false := sW2_false_of_sW1 h1
                  rw [show subBlankF (f2 + 1) ('\n' :: r2) = '\n' :: subBlankF f2 r2 from by
                    simp [subBlankF, hs2]]
                  rw [sW2_cons_nl]
                  apply sW1_false_of_head
                  rw [subBlankF_head]
                  exact head_ne_nl_of_sW1_false h1
              · apply sW2_false_of_head
                rw [subBlankF_head]
                simp [ha]
          simp [noTriple, hsf, hnt]
        · have hcb : (c == '\n') = false := by simp [hc]
          simp [noTriple, hcb, hnt]
      · have hc : c = '\n' := by
          have := (Bool.and_eq_true _ _).mp hcond
          simpa using this.1
        have hs : startsWithL ['\n', '\n'] rest = true := ((Bool.and_eq_true _ _).mp hcond).2
        subst hc
        rw [show subBlankF (f + 1) ('\n' :: rest) =
            '\n' :: '\n' :: subBlankF f (rest.dropWhile (· == '\n')) from by
          simp [subBlankF, hs]]
        have hd : (rest.dropWhile (· == '\n')).length ≤ f := by
          have h1 := dropWhile_len_le (· == '\n') rest
          simp only [List.length_cons] at hl
          omega
        apply noTriple_two_nl
        · rw [subBlankF_head]
          intro hh
          cases hd2 : rest.dropWhile (· == '\n') with
          | nil => rw [hd2] at hh; simp at hh
          | cons b t2 =>
            rw [hd2] at hh
            have hb := dropWhile_head_false hd2
            simp at hb hh
            exact hb hh
        · exact ih hd

theorem trim_right_decomp (u : Str) :
    u = (u.reverse.dropWhile isPySpace).reverse ++ (u.reverse.takeWhile isPySpace).reverse := by
  have hd := List.takeWhile_append_dropWhile isPySpace u.reverse
  calc u = u.reverse.reverse := (List.reverse_reverse u).symm
    _ = (u.reverse.takeWhile isPySpace ++ u.reverse.dropWhile isPySpace).reverse := by rw [hd]
    _ = (u.reverse.dropWhile isPySpace).reverse ++ (u.reverse.takeWhile isPySpace).reverse :=
      List.reverse_append _ _

theorem trimR_head (u : Str) (c : Char)
    (hc : ((u.reverse.dropWhile isPySpace).reverse).head? = some c) : u.head? = some c := by
  have key := trim_right_decomp u
  cases hv : (u.reverse.dropWhile isPySpace).reverse with
  | nil => rw [hv] at hc; simp at hc
  | cons b t =>
    rw [hv] at hc
    simp only [List.head?_cons, Option.some.injEq] at hc
    rw [key, hv, List.cons_append]
    simp [hc]

theorem pyStrip_mem {a : Char} {l : Str} (h : a ∈ pyStrip l) : a ∈ l := by
  unfold pyStrip at h
  rw [List.mem_reverse] at h
  have h2 := dropWhile_mem h
  rw [List.mem_reverse] at h2
  exact dropWhile_mem h2

theorem pyStrip_noTriple {l : Str} (h : noTriple l = true) : noTriple (pyStrip l) = true := by
  unfold pyStrip
  have h1 : noTriple (l.dropWhile isPySpace) = true := by
    have hd := List.takeWhile_append_dropWhile isPySpace l
    exact noTriple_append_right (by rw [hd]; exact h)
  have key := trim_right_decomp (l.dropWhile isPySpace)
  rw [key] at h1
  exact noTriple_append_left h1

theorem pyStrip_idem (l : Str) : pyStrip (pyStrip l) = pyStrip l := by
  unfold pyStrip
  have step1 :
      (((l.dropWhile isPySpace).reverse.dropWhile isPySpace).reverse).dropWhile isPySpace =
        ((l.dropWhile isPySpace).reverse.dropWhile isPySpace).reverse := by
    apply dropWhile_eq_self_of_head
    intro c hc
    have h2 : (l.dropWhile isPySpace).head? = some c := trimR_head _ c hc
    cases hm2 : l.dropWhile isPySpace with
    | nil => rw [hm2] at h2; simp at h2
    | cons b t =>
      rw [hm2] at h2
      simp only [List.head?_cons, Option.some.injEq] at h2
      have hb := dropWhile_head_false hm2
      rw [← h2]
      exact hb
  rw [step1, List.reverse_reverse, dropWhile_twice]

theorem subBlank_id_of_noTriple {l : Str} (h : noTriple l = true) : subBlank l = l :=
  subBlankF_id_of_noTriple _ h

/-- C5 counterexample: `clean_text_block` is not idempotent. One pass over
"# #x" consumes the heading marker and the following space of line 105's
pattern, exposing a fresh "#" at the start of the line, which only a second
pass removes. -/
theorem C5_clean_not_idempotent :
    clean_text_block (clean_text_block (("# #x").data)) ≠
      clean_text_block (("# #x").data) := by decide

/-- C5 amended: the normalizer is idempotent on inputs that contain none of
the marker characters it rewrites — no emphasis asterisk, no heading mark,
no bullet glyph and no carriage return; on such inputs one pass is blank-line
collapsing plus stripping, and a second pass changes nothing. (In general a
single pass can expose a fresh marker — see the counterexample — so
idempotence fails.) -/
theorem C5_clean_idem_marker_free (l : Str)
    (h1 : '*' ∉ l) (h2 : '#' ∉ l) (h3 : '•' ∉ l) (h4 : '\r' ∉ l) :
    clean_text_block (clean_text_block l) = clean_text_block l := by
  by_cases hl : l = []
  · subst hl; rfl
  · have hcl : clean_text_block l = pyStrip (subBlank l) := by
      unfold clean_text_block
      rw [if_neg hl, subBold_id h1, subItalic_id h1, subHash_id h2, subBullet_id h3,
        subCrlf_id h4]
    have hysub : ∀ a : Char, a ∈ pyStrip (subBlank l) → a ∈ l := fun a ha =>
      subBlankF_mem _ (pyStrip_mem ha)
    have hy1 : '*' ∉ pyStrip (subBlank l) := fun ha => h1 (hysub _ ha)
    have hy2 : '#' ∉ pyStrip (subBlank l) := fun ha => h2 (hysub _ ha)
    have hy3 : '•' ∉ pyStrip (subBlank l) := fun ha => h3 (hysub _ ha)
    have hy4 : '\r' ∉ pyStrip (subBlank l) := fun ha => h4 (hysub _ ha)
    rw [hcl]
    by_cases hye : pyStrip (subBlank l) = []
    · rw [hye]; rfl
    · have hcy : clean_text_block (pyStrip (subBlank l)) =
          pyStrip (subBlank (pyStrip (subBlank l))) := by
        unfold clean_text_block
        rw [if_neg hye, subBold_id hy1, subItalic_id hy1, subHash_id hy2, subBullet_id hy3,
          subCrlf_id hy4]
      rw [hcy]
      have hnt : noTriple (subBlank l) = true := subBlankF_noTriple _ (by omega)
      have hnty : noTriple (pyStrip (subBlank l)) = true := pyStrip_noTriple hnt
      rw [subBlank_id_of_noTriple hnty]
      exact pyStrip_idem _

/-- Witness for C5 at the marker-free input "a\n\n\n\nb". -/
theorem C5_clean_idem_marker_free_witness :
    ('*' ∉ ("a\n\n\n\nb").data ∧ '#' ∉ ("a\n\n\n\nb").data ∧
        '•' ∉ ("a\n\n\n\nb").data ∧ '\r' ∉ ("a\n\n\n\nb").data) ∧
      clean_text_block (clean_text_block (("a\n\n\n\nb").data)) =
        clean_text_block (("a\n\n\n\nb").data) :=
  ⟨⟨by decide, by decide, by decide, by decide⟩,
    C5_clean_idem_marker_free _ (by decide) (by decide) (by decide) (by decide)⟩
